import Mathlib

/-
Shallow embedding of the migration service found in
src/cmd/migration-service/main.go of the astras-mono-api repository.

Modelling conventions:
- The datastore is reduced to the contents of the schema_migrations
  tracking table, represented as a `List String` of applied versions
  (the applied_at timestamps play no role in any claim).
- Script execution (`tx.Exec(migration.Content)`) is modelled by an
  oracle `execErr : String -> Option String`: `none` means the datastore
  accepts the script body, `some e` means it rejects it with error `e`.
  The bookkeeping INSERT/DELETE on the tracking table and transaction
  begin/commit are taken to succeed, as in a healthy datastore; a failed
  script execution rolls the transaction back, so the version is not
  recorded (mirrored here by returning the untouched applied list).
- Every datastore touch is additionally recorded in an operation trace
  (`Op`), so that statements about which invocations read, create or
  write the tracking table are expressible.
- Strings are compared and sorted with Lean's lexicographic order on
  strings, matching Go's byte-wise comparison on the ASCII version
  strings the service deals with.
-/

namespace Migration

/-- MigrationFile, main.go lines 28-34. -/
structure MigrationFile where
  version : String
  name : String
  direction : String
  content : String
  filePath : String
deriving DecidableEq

/-- MigrationResponse, main.go lines 41-46.  A `none` slice and an empty
string are both rendered as an absent JSON field, so they are collapsed
to `[]` and `""` here. -/
structure MigrationResponse where
  success : Bool
  message : String
  appliedVersions : List String
  error : String
deriving DecidableEq

/-- One observable touch of the datastore by the service. -/
inductive Op where
  | createTable
  | listApplied
  | execScript (content : String)
  | insertRecord (version : String)
  | deleteRecord (version : String)
deriving DecidableEq

/-- Outcome of one engine operation: the returned error (if any), the
resulting contents of the schema_migrations table, and the trace of
datastore operations performed. -/
structure EngineResult where
  err : Option String
  db : List String
  ops : List Op
deriving DecidableEq

/-- Outcome of one Lambda invocation: the response, the resulting
tracking-table contents and the datastore trace. -/
structure HandleResult where
  response : MigrationResponse
  db : List String
  ops : List Op
deriving DecidableEq

/-- strings.Split on the dot character, char by char (Go and Lean agree
on this splitting semantics; main.go line 106 splits the file name). -/
def splitDots : List Char → List (List Char)
  | [] => [[]]
  | c :: cs =>
    match splitDots cs with
    | [] => [[c]]
    | p :: ps => if c = '.' then [] :: p :: ps else (c :: p) :: ps

/-- strings.HasSuffix(path, ".sql"), main.go line 101. -/
def endsWithDotSql (filename : String) : Bool :=
  filename.data.reverse.take 4 = ['l', 'q', 's', '.']

/-- strings.Join(parts, "."), main.go line 126. -/
def joinDots : List String → String
  | [] => ""
  | [s] => s
  | s :: rest => s ++ "." ++ joinDots rest

/-- Parsing of one directory entry inside the filepath.Walk callback of
loadMigrationFiles, main.go lines 96-134.  An entry is a pair of file
name and file content; entries that do not match the
version.name.direction.sql convention are skipped (`none`). -/
def parseMigration (entry : String × String) : Option MigrationFile :=
  let filename := entry.1
  if endsWithDotSql filename then
    let parts := (splitDots filename.data).map String.mk
    if parts.length < 3 then none
    else
      let direction := (parts.drop (parts.length - 2)).headD ""
      if direction == "up" || direction == "down" then
        some { version := parts.headD ""
               name := joinDots ((parts.drop 1).take (parts.length - 3))
               direction := direction
               content := entry.2
               filePath := filename }
      else none
  else none

/-- Byte-wise lexicographic strict comparison of character lists,
mirroring Go's built-in string comparison on the service's ASCII
version strings. -/
def charsLt : List Char → List Char → Bool
  | [], [] => false
  | [], _ :: _ => true
  | _ :: _, [] => false
  | a :: as, b :: bs =>
    if a.toNat < b.toNat then true
    else if b.toNat < a.toNat then false
    else charsLt as bs

/-- Go's s1 < s2 on strings. -/
def verLt (a b : String) : Bool := charsLt a.data b.data

/-- Go's s1 <= s2 on strings. -/
def verLe (a b : String) : Bool := !(verLt b a)

/-- Insertion step of an insertion sort with a boolean comparator. -/
def insertBy {α : Type} (le : α → α → Bool) (x : α) : List α → List α
  | [] => [x]
  | y :: ys => if le x y then x :: y :: ys else y :: insertBy le x ys

/-- Insertion sort with a boolean comparator. -/
def sortBy {α : Type} (le : α → α → Bool) : List α → List α
  | [] => []
  | x :: xs => insertBy le x (sortBy le xs)

/-- Ascending sort of version strings, modelling sort.Strings
(main.go line 194). -/
def sortAsc (l : List String) : List String :=
  sortBy verLe l

/-- Descending sort, modelling sort.Sort(sort.Reverse(sort.StringSlice))
of main.go line 260. -/
def sortDesc (l : List String) : List String :=
  (sortAsc l).reverse

/-- loadMigrationFiles, main.go lines 93-146: parse every entry, keep
the ones matching the naming convention, sort by version (the
sort.Slice call of line 141). -/
def loadMigrationFiles (files : List (String × String)) : List MigrationFile :=
  sortBy (fun a b => verLe a.version b.version) (files.filterMap parseMigration)

/-- The zero value of the Go MigrationFile struct (returned by a map
lookup on an absent key). -/
def zeroFile : MigrationFile :=
  { version := "", name := "", direction := "", content := "", filePath := "" }

/-- Last-wins map lookup: Go builds upMigrations / downMigrations by
successive map assignment over the catalog list (main.go lines 180-185
and 248-253), so the last list entry with a given version wins. -/
def findLast (l : List MigrationFile) (v : String) : Option MigrationFile :=
  (l.filter (fun m => m.version == v)).getLast?

/-- The forward ("up") part of the catalog, main.go lines 180-185. -/
def upsOf (files : List (String × String)) : List MigrationFile :=
  (loadMigrationFiles files).filter (fun m => m.direction == "up")

/-- The backward ("down") part of the catalog, main.go lines 248-253. -/
def downsOf (files : List (String × String)) : List MigrationFile :=
  (loadMigrationFiles files).filter (fun m => m.direction == "down")

/-- The script body the apply loop hands to the datastore for version
`v` (main.go lines 202 and 211: `upMigrations[version]` then
`tx.Exec(migration.Content)`). -/
def contentFor (ups : List MigrationFile) (v : String) : String :=
  ((findLast ups v).getD zeroFile).content

/-- The pending plan of an apply invocation, main.go lines 188-194:
the distinct versions having an up script that are not yet recorded as
applied, sorted ascending. -/
def pendingOf (files : List (String × String)) (db : List String) : List String :=
  sortAsc ((((upsOf files).map (fun m => m.version)).dedup).filter
    (fun v => decide (v ∉ db)))

/-- The per-version apply loop, main.go lines 201-227.  Each iteration
runs one transaction: execute the up script, insert the tracking record,
commit; a rejected script rolls the transaction back and aborts the
whole loop with the wrapping error of line 213. -/
def migrateLoop (execErr : String → Option String) (ups : List MigrationFile) :
    List String → List String → EngineResult
  | [], db => ⟨none, db, []⟩
  | v :: rest, db =>
    let m := (findLast ups v).getD zeroFile
    match execErr m.content with
    | some e =>
      ⟨some ("failed to execute migration " ++ v ++ ": " ++ e), db,
        [Op.execScript m.content]⟩
    | none =>
      let r := migrateLoop execErr ups rest (db ++ [v])
      ⟨r.err, r.db, Op.execScript m.content :: Op.insertRecord v :: r.ops⟩

/-- migrate, main.go lines 169-230. -/
def migrate (execErr : String → Option String) (files : List (String × String))
    (db : List String) : EngineResult :=
  let pending := pendingOf files db
  if pending = [] then ⟨none, db, [Op.listApplied]⟩
  else
    let r := migrateLoop execErr (upsOf files) pending db
    ⟨r.err, r.db, Op.listApplied :: r.ops⟩

/-- The versions a rollback invocation selects, main.go lines 256-270:
applied versions sorted descending, clamped to the requested number of
steps. -/
def rollbackSelected (db : List String) (steps : Int) : List String :=
  let appliedVersions := sortDesc db
  appliedVersions.take (min steps (appliedVersions.length : Int)).toNat

/-- The per-version rollback loop, main.go lines 272-303: a selected
version without a down script aborts with the error of line 276 before
any transaction is opened; otherwise one transaction executes the down
script and deletes the tracking record. -/
def rollbackLoop (execErr : String → Option String) (downs : List MigrationFile) :
    List String → List String → EngineResult
  | [], db => ⟨none, db, []⟩
  | v :: rest, db =>
    match findLast downs v with
    | none => ⟨some ("down migration not found for version " ++ v), db, []⟩
    | some m =>
      match execErr m.content with
      | some e =>
        ⟨some ("failed to execute rollback " ++ v ++ ": " ++ e), db,
          [Op.execScript m.content]⟩
      | none =>
        let r := rollbackLoop execErr downs rest (db.erase v)
        ⟨r.err, r.db, Op.execScript m.content :: Op.deleteRecord v :: r.ops⟩

/-- rollback, main.go lines 232-306.  The steps guard of line 233 comes
before every datastore access. -/
def rollback (execErr : String → Option String) (files : List (String × String))
    (steps : Int) (db : List String) : EngineResult :=
  if steps ≤ 0 then ⟨some "steps must be greater than 0", db, []⟩
  else
    let downs := downsOf files
    let appliedVersions := sortDesc db
    if appliedVersions = [] then ⟨none, db, [Op.listApplied]⟩
    else
      let r := rollbackLoop execErr downs (rollbackSelected db steps) db
      ⟨r.err, r.db, Op.listApplied :: r.ops⟩

/-- status, main.go lines 308-321: the applied versions, sorted
ascending. -/
def status (db : List String) : List String :=
  sortAsc db

/-- strings.TrimPrefix(s, pre), main.go line 341. -/
def dropPre (s pre : String) : String :=
  if s.data.take pre.data.length = pre.data then
    String.mk (s.data.drop pre.data.length)
  else s

/-- Command extraction from the request path, main.go lines 341-344:
trim the /migrations/ prefix; an empty remainder or an untouched path
falls back to the status command. -/
def commandOf (path : String) : String :=
  let command := dropPre path "/migrations/"
  if command = "" ∨ command = path then "status" else command

/-- handleRequest, main.go lines 323-428.  Service construction
(NewMigrationService, lines 48-80) unconditionally ensures the tracking
table exists before the command is dispatched, hence the leading
createTable operation.  The rollback branch of lines 363-365 hardcodes
steps to 1; the request body is never parsed. -/
def handleRequest (execErr : String → Option String)
    (files : List (String × String)) (path : String) (db : List String) :
    HandleResult :=
  let command := commandOf path
  if command = "migrate" then
    let r := migrate execErr files db
    match r.err with
    | some e =>
      ⟨⟨false, "Migration failed", [], e⟩, r.db, Op.createTable :: r.ops⟩
    | none =>
      ⟨⟨true, "Migrations applied successfully", status r.db, ""⟩, r.db,
        Op.createTable :: r.ops ++ [Op.listApplied]⟩
  else if command = "rollback" then
    let r := rollback execErr files 1 db
    match r.err with
    | some e =>
      ⟨⟨false, "Rollback failed", [], e⟩, r.db, Op.createTable :: r.ops⟩
    | none =>
      ⟨⟨true, "Rollback completed successfully", status r.db, ""⟩, r.db,
        Op.createTable :: r.ops ++ [Op.listApplied]⟩
  else if command = "status" then
    ⟨⟨true, "Migration status retrieved successfully", status db, ""⟩, db,
      [Op.createTable, Op.listApplied]⟩
  else
    ⟨⟨false, "Unknown command", [], "Unknown command: " ++ command⟩, db,
      [Op.createTable]⟩

/-- Whether version `v` can be rolled back: it has a down script whose
body the datastore accepts. -/
def downOk (execErr : String → Option String) (downs : List MigrationFile)
    (v : String) : Bool :=
  match findLast downs v with
  | none => false
  | some m => (execErr m.content).isNone

/-- The versions whose tracking records a trace deletes, in order. -/
def opsDeleted (ops : List Op) : List String :=
  ops.filterMap fun o =>
    match o with
    | Op.deleteRecord v => some v
    | _ => none

/- ------------------------------------------------------------------
   Helper lemmas
   ------------------------------------------------------------------ -/

theorem char_toNat_inj {a b : Char} (h : a.toNat = b.toNat) : a = b := by
  cases a; cases b
  simp only [Char.toNat, UInt32.toNat] at h
  congr 1
  exact UInt32.toNat.inj h

theorem string_data_inj {a b : String} (h : a.data = b.data) : a = b := by
  cases a; cases b; exact congrArg String.mk h

theorem str_append_data (a b : String) : (a ++ b).data = a.data ++ b.data := by
  cases a; cases b; rfl

theorem charsLt_irrefl : ∀ x : List Char, charsLt x x = false
  | [] => rfl
  | a :: as => by simp [charsLt, charsLt_irrefl as]

theorem charsLt_asymm :
    ∀ x y : List Char, charsLt x y = true → charsLt y x = false
  | [], [] => by simp [charsLt]
  | [], _ :: _ => by simp [charsLt]
  | _ :: _, [] => by simp [charsLt]
  | a :: as, b :: bs => by
    rcases Nat.lt_trichotomy a.toNat b.toNat with h | h | h
    · simp [charsLt, h, Nat.lt_asymm h]
    · intro h1
      rw [show charsLt (a :: as) (b :: bs) = charsLt as bs from by
        simp [charsLt, h]] at h1
      rw [show charsLt (b :: bs) (a :: as) = charsLt bs as from by
        simp [charsLt, h]]
      exact charsLt_asymm as bs h1
    · simp [charsLt, h, Nat.lt_asymm h]

theorem charsLt_conn :
    ∀ x y : List Char, charsLt x y = false → charsLt y x = false → x = y
  | [], [] => by simp
  | [], _ :: _ => by simp [charsLt]
  | _ :: _, [] => by simp [charsLt]
  | a :: as, b :: bs => by
    rcases Nat.lt_trichotomy a.toNat b.toNat with h | h | h
    · simp [charsLt, h]
    · intro h1 h2
      simp only [charsLt, h, lt_self_iff_false, if_false] at h1 h2
      rw [char_toNat_inj h, charsLt_conn as bs h1 h2]
    · simp [charsLt, h]

theorem charsLt_trans :
    ∀ x y z : List Char,
      charsLt x y = true → charsLt y z = true → charsLt x z = true
  | [], [], _ => by simp [charsLt]
  | [], _ :: _, [] => by simp [charsLt]
  | [], _ :: _, _ :: _ => by simp [charsLt]
  | _ :: _, [], _ => by simp [charsLt]
  | _ :: _, _ :: _, [] => by simp [charsLt]
  | a :: as, b :: bs, c :: cs => by
    rcases Nat.lt_trichotomy a.toNat b.toNat with hab | hab | hab <;>
      rcases Nat.lt_trichotomy b.toNat c.toNat with hbc | hbc | hbc
    · simp [charsLt, hab, hbc, Nat.lt_trans hab hbc]
    · simp [charsLt, hab, hbc ▸ hab, hbc]
    · simp [charsLt, hbc, Nat.lt_asymm hbc]
    · simp [charsLt, hab ▸ hbc, hab, hbc]
    · intro h1 h2
      rw [show charsLt (a :: as) (b :: bs) = charsLt as bs from by
        simp [charsLt, hab]] at h1
      rw [show charsLt (b :: bs) (c :: cs) = charsLt bs cs from by
        simp [charsLt, hbc]] at h2
      rw [show charsLt (a :: as) (c :: cs) = charsLt as cs from by
        simp [charsLt, hab.trans hbc]]
      exact charsLt_trans as bs cs h1 h2
    · simp [charsLt, hbc, Nat.lt_asymm hbc]
    · simp [charsLt, hab, Nat.lt_asymm hab]
    · simp [charsLt, hab, Nat.lt_asymm hab]
    · simp [charsLt, hab, Nat.lt_asymm hab]

theorem verLe_total {a b : String} (h : verLe a b = false) : verLe b a = true := by
  unfold verLe verLt at h ⊢
  rw [charsLt_asymm _ _ (by simpa using h)]
  rfl

theorem verLe_trans {a b c : String} (h1 : verLe a b = true)
    (h2 : verLe b c = true) : verLe a c = true := by
  unfold verLe verLt at h1 h2 ⊢
  rw [Bool.not_eq_true'] at h1 h2 ⊢
  by_contra hca
  rw [Bool.not_eq_false] at hca
  cases hbc : charsLt b.data c.data with
  | true => exact absurd (charsLt_trans _ _ _ hbc hca) (by simp [h1])
  | false =>
    rw [charsLt_conn _ _ hbc h2] at h1
    exact absurd hca (by simp [h1])

theorem verLe_antisymm {a b : String} (h1 : verLe a b = true)
    (h2 : verLe b a = true) : a = b := by
  unfold verLe verLt at h1 h2
  rw [Bool.not_eq_true'] at h1 h2
  exact string_data_inj (charsLt_conn _ _ h2 h1)

theorem verLt_of_verLe_ne {a b : String} (h1 : verLe a b = true)
    (h2 : a ≠ b) : verLt a b = true := by
  unfold verLe at h1
  unfold verLt at h1 ⊢
  rw [Bool.not_eq_true'] at h1
  cases hab : charsLt a.data b.data with
  | true => rfl
  | false => exact absurd (string_data_inj (charsLt_conn _ _ hab h1)) h2

theorem insertBy_perm {α : Type} (le : α → α → Bool) (x : α) :
    ∀ l : List α, (insertBy le x l).Perm (x :: l)
  | [] => List.Perm.refl _
  | y :: ys => by
    unfold insertBy
    cases le x y with
    | true => simp
    | false =>
      simp only [if_false, Bool.false_eq_true]
      exact ((insertBy_perm le x ys).cons y).trans (List.Perm.swap x y ys)

theorem sortBy_perm {α : Type} (le : α → α → Bool) :
    ∀ l : List α, (sortBy le l).Perm l
  | [] => List.Perm.refl _
  | x :: xs =>
    (insertBy_perm le x (sortBy le xs)).trans ((sortBy_perm le xs).cons x)

theorem insertBy_pairwise {α : Type} {le : α → α → Bool}
    (htot : ∀ a b, le a b = false → le b a = true)
    (htr : ∀ a b c, le a b = true → le b c = true → le a c = true) (x : α) :
    ∀ l : List α, l.Pairwise (fun a b => le a b = true) →
      (insertBy le x l).Pairwise (fun a b => le a b = true)
  | [], _ => by simp [insertBy]
  | y :: ys, h => by
    unfold insertBy
    cases hxy : le x y with
    | true =>
      simp only [if_true]
      refine List.Pairwise.cons ?_ h
      intro z hz
      rcases List.mem_cons.mp hz with h1 | h2
      · rw [h1]; exact hxy
      · exact htr x y z hxy (List.rel_of_pairwise_cons h h2)
    | false =>
      simp only [Bool.false_eq_true, if_false]
      refine List.Pairwise.cons ?_
        (insertBy_pairwise htot htr x ys (List.Pairwise.of_cons h))
      intro z hz
      rcases List.mem_cons.mp ((insertBy_perm le x ys).mem_iff.mp hz)
        with h1 | h2
      · rw [h1]; exact htot x y hxy
      · exact List.rel_of_pairwise_cons h h2

theorem sortBy_pairwise {α : Type} {le : α → α → Bool}
    (htot : ∀ a b, le a b = false → le b a = true)
    (htr : ∀ a b c, le a b = true → le b c = true → le a c = true) :
    ∀ l : List α, (sortBy le l).Pairwise (fun a b => le a b = true)
  | [] => List.Pairwise.nil
  | x :: xs =>
    insertBy_pairwise htot htr x (sortBy le xs)
      (sortBy_pairwise htot htr xs)

theorem sortAsc_perm (l : List String) : (sortAsc l).Perm l :=
  sortBy_perm verLe l

theorem sortAsc_pairwise_le (l : List String) :
    (sortAsc l).Pairwise (fun a b => verLe a b = true) :=
  @sortBy_pairwise String verLe (fun _ _ h => verLe_total h)
    (fun _ _ _ h1 h2 => verLe_trans h1 h2) l

theorem sortAsc_nodup {l : List String} (h : l.Nodup) : (sortAsc l).Nodup :=
  ((sortAsc_perm l).nodup_iff).mpr h

theorem sortAsc_pairwise_lt {l : List String} (h : l.Nodup) :
    (sortAsc l).Pairwise (fun a b => verLt a b = true) :=
  ((sortAsc_pairwise_le l).and (sortAsc_nodup h)).imp
    (fun hab => verLt_of_verLe_ne hab.1 hab.2)

theorem sortDesc_perm (l : List String) : (sortDesc l).Perm l :=
  (List.reverse_perm _).trans (sortAsc_perm l)

theorem sortDesc_pairwise_gt {l : List String} (h : l.Nodup) :
    (sortDesc l).Pairwise (fun a b => verLt b a = true) :=
  (List.pairwise_reverse).mpr (sortAsc_pairwise_lt h)

theorem pendingOf_nodup (files : List (String × String)) (db : List String) :
    (pendingOf files db).Nodup := by
  unfold pendingOf
  exact ((sortAsc_perm _).nodup_iff).mpr ((List.nodup_dedup _).filter _)

theorem pendingOf_pairwise_lt (files : List (String × String))
    (db : List String) :
    (pendingOf files db).Pairwise (fun a b => verLt a b = true) := by
  unfold pendingOf
  exact sortAsc_pairwise_lt ((List.nodup_dedup _).filter _)

theorem mem_pendingOf {files : List (String × String)} {db : List String}
    {v : String} :
    v ∈ pendingOf files db ↔
      ((∃ m ∈ loadMigrationFiles files, m.direction = "up" ∧ m.version = v)
        ∧ v ∉ db) := by
  unfold pendingOf sortAsc
  rw [(sortBy_perm verLe _).mem_iff]
  simp only [List.mem_filter, List.mem_dedup, List.mem_map, decide_eq_true_eq,
    upsOf, beq_iff_eq]
  tauto

theorem migrateLoop_ok (execErr : String → Option String)
    (ups : List MigrationFile) (vs : List String) :
    ∀ db, (∀ v ∈ vs, execErr (contentFor ups v) = none) →
      migrateLoop execErr ups vs db =
        ⟨none, db ++ vs,
          vs.bind fun v => [Op.execScript (contentFor ups v), Op.insertRecord v]⟩ := by
  induction vs with
  | nil => intro db _; simp [migrateLoop]
  | cons v rest ih =>
    intro db h
    have hv : execErr (contentFor ups v) = none := h v (by simp)
    have hrest := ih (db ++ [v]) (fun u hu => h u (by simp [hu]))
    simp only [migrateLoop]
    rw [show ((findLast ups v).getD zeroFile).content = contentFor ups v from rfl,
      hv, hrest]
    simp

theorem migrateLoop_err_none (execErr : String → Option String)
    (ups : List MigrationFile) (vs : List String) :
    ∀ db, (migrateLoop execErr ups vs db).err = none →
      ∀ v ∈ vs, execErr (contentFor ups v) = none := by
  induction vs with
  | nil => intro db _ v hv; exact absurd hv (List.not_mem_nil v)
  | cons v rest ih =>
    intro db herr u hu
    rw [show migrateLoop execErr ups (v :: rest) db =
        (match execErr (contentFor ups v) with
          | some e =>
            ⟨some ("failed to execute migration " ++ v ++ ": " ++ e), db,
              [Op.execScript (contentFor ups v)]⟩
          | none =>
            let r := migrateLoop execErr ups rest (db ++ [v])
            ⟨r.err, r.db, Op.execScript (contentFor ups v) ::
              Op.insertRecord v :: r.ops⟩) from rfl] at herr
    cases hx : execErr (contentFor ups v) with
    | some e => rw [hx] at herr; simp at herr
    | none =>
      rw [hx] at herr
      simp only [] at herr
      rcases List.mem_cons.mp hu with h1 | h2
      · rw [h1]; exact hx
      · exact ih (db ++ [v]) herr u h2

theorem migrateLoop_split (execErr : String → Option String)
    (ups : List MigrationFile) (v e : String) (post : List String)
    (hv : execErr (contentFor ups v) = some e) :
    ∀ (pre : List String) db, (∀ u ∈ pre, execErr (contentFor ups u) = none) →
      migrateLoop execErr ups (pre ++ v :: post) db =
        ⟨some ("failed to execute migration " ++ v ++ ": " ++ e), db ++ pre,
          (pre.bind fun u =>
            [Op.execScript (contentFor ups u), Op.insertRecord u])
            ++ [Op.execScript (contentFor ups v)]⟩ := by
  intro pre
  induction pre with
  | nil =>
    intro db _
    simp only [List.nil_append, migrateLoop]
    rw [show ((findLast ups v).getD zeroFile).content = contentFor ups v from rfl,
      hv]
    simp
  | cons u rest ih =>
    intro db h
    have hu : execErr (contentFor ups u) = none := h u (by simp)
    have hrest := ih (db ++ [u]) (fun w hw => h w (by simp [hw]))
    simp only [List.cons_append, migrateLoop,
      show ((findLast ups u).getD zeroFile).content = contentFor ups u from rfl,
      hu, List.append_eq, hrest]
    simp

theorem downOk_iff {execErr : String → Option String}
    {downs : List MigrationFile} {v : String} :
    downOk execErr downs v = true ↔
      ∃ m, findLast downs v = some m ∧ execErr m.content = none := by
  unfold downOk
  cases h : findLast downs v with
  | none => simp [h]
  | some m => simp [h, Option.isNone_iff_eq_none]

theorem rollbackLoop_ok (execErr : String → Option String)
    (downs : List MigrationFile) (vs : List String) :
    ∀ db, (∀ v ∈ vs, downOk execErr downs v = true) →
      rollbackLoop execErr downs vs db =
        ⟨none, vs.foldl (fun acc v => acc.erase v) db,
          vs.bind fun v =>
            [Op.execScript (((findLast downs v).getD zeroFile).content),
              Op.deleteRecord v]⟩ := by
  induction vs with
  | nil => intro db _; simp [rollbackLoop]
  | cons v rest ih =>
    intro db h
    rcases downOk_iff.mp (h v (by simp)) with ⟨m, hm, hex⟩
    have hrest := ih (db.erase v) (fun u hu => h u (by simp [hu]))
    simp only [rollbackLoop, hm, hex, hrest]
    simp [hm]

theorem rollbackLoop_err_none (execErr : String → Option String)
    (downs : List MigrationFile) (vs : List String) :
    ∀ db, (rollbackLoop execErr downs vs db).err = none →
      ∀ v ∈ vs, downOk execErr downs v = true := by
  induction vs with
  | nil => intro db _ v hv; exact absurd hv (List.not_mem_nil v)
  | cons v rest ih =>
    intro db herr u hu
    cases hm : findLast downs v with
    | none => simp [rollbackLoop, hm] at herr
    | some m =>
      cases hex : execErr m.content with
      | some e => simp [rollbackLoop, hm, hex] at herr
      | none =>
        simp only [rollbackLoop, hm, hex] at herr
        rcases List.mem_cons.mp hu with h1 | h2
        · rw [h1]; exact downOk_iff.mpr ⟨m, hm, hex⟩
        · exact ih (db.erase v) herr u h2

theorem rollbackLoop_missing (execErr : String → Option String)
    (downs : List MigrationFile) (v : String) (post : List String)
    (hv : findLast downs v = none) :
    ∀ (pre : List String) db, (∀ u ∈ pre, downOk execErr downs u = true) →
      rollbackLoop execErr downs (pre ++ v :: post) db =
        ⟨some ("down migration not found for version " ++ v),
          pre.foldl (fun acc u => acc.erase u) db,
          pre.bind fun u =>
            [Op.execScript (((findLast downs u).getD zeroFile).content),
              Op.deleteRecord u]⟩ := by
  intro pre
  induction pre with
  | nil =>
    intro db _
    simp only [List.nil_append, rollbackLoop]
    rw [hv]
    simp
  | cons u rest ih =>
    intro db h
    rcases downOk_iff.mp (h u (by simp)) with ⟨m, hm, hex⟩
    have hrest := ih (db.erase u) (fun w hw => h w (by simp [hw]))
    simp only [List.cons_append, rollbackLoop, hm, hex, List.append_eq, hrest]
    simp [hm]

theorem foldl_erase_of_perm (vs : List String) :
    ∀ db : List String,
      vs.Perm db → vs.foldl (fun acc v => List.erase acc v) db = [] := by
  induction vs with
  | nil =>
    intro db h
    simp [h.symm.eq_nil]
  | cons v rest ih =>
    intro db h
    have hv : v ∈ db := h.mem_iff.mp (by simp)
    have hperm : (v :: rest).Perm (v :: db.erase v) :=
      h.trans (List.perm_cons_erase hv)
    have hrest : rest.Perm (db.erase v) := hperm.cons_inv
    simpa using ih (db.erase v) hrest

theorem mem_foldl_erase (pre : List String) (v : String) :
    ∀ db : List String, v ∈ db → v ∉ pre →
      v ∈ pre.foldl (fun acc u => List.erase acc u) db := by
  induction pre with
  | nil => intro db h _; simpa using h
  | cons u rest ih =>
    intro db hdb hv
    have hne : v ≠ u := fun he => hv (by simp [he])
    have : v ∈ db.erase u := (List.mem_erase_of_ne hne).mpr hdb
    simpa using ih (db.erase u) this (fun hm => hv (by simp [hm]))

theorem opsDeleted_step (vs : List String) (c : String → String) :
    opsDeleted (vs.bind fun v => [Op.execScript (c v), Op.deleteRecord v]) = vs := by
  induction vs with
  | nil => rfl
  | cons v rest ih => simp [opsDeleted] at ih ⊢; exact ih

theorem commandOf_migrate_path : commandOf "/migrations/migrate" = "migrate" := by
  decide

theorem commandOf_rollback_path : commandOf "/migrations/rollback" = "rollback" := by
  decide

/- ------------------------------------------------------------------
   Concrete fixtures used by witnesses and counterexamples
   ------------------------------------------------------------------ -/

/-- A three-version catalog with both directions for every version. -/
def filesABC : List (String × String) :=
  [("001.alpha.up.sql", "CREATE A"), ("001.alpha.down.sql", "DROP A"),
   ("002.beta.up.sql", "CREATE B"), ("002.beta.down.sql", "DROP B"),
   ("003.gamma.up.sql", "CREATE C"), ("003.gamma.down.sql", "DROP C")]

/-- A datastore that accepts every script body. -/
def execAll : String → Option String := fun _ => none

/-- A datastore that rejects exactly the body of version 002's up script. -/
def execFailB : String → Option String :=
  fun c => if c = "CREATE B" then some "syntax error" else none

/-- A catalog with two up entries declaring the same version 001. -/
def filesDup : List (String × String) :=
  [("001.alpha.up.sql", "CREATE A"), ("001.beta.up.sql", "CREATE A2")]

/-- A catalog where version 001 has no down script. -/
def filesNoDown : List (String × String) :=
  [("001.alpha.up.sql", "CREATE A"),
   ("002.beta.up.sql", "CREATE B"), ("002.beta.down.sql", "DROP B")]

/- ------------------------------------------------------------------
   Claim theorems
   ------------------------------------------------------------------ -/

/-- Claim C9 (confirmed): calling rollback with a non-positive steps value
fails with the invalid-argument error of main.go line 234 before any
datastore access is performed (empty operation trace), leaving the
applied-version store unchanged. -/
theorem rollback_rejects_nonpositive_steps (execErr : String → Option String)
    (files : List (String × String)) (steps : Int) (db : List String)
    (h : steps ≤ 0) :
    rollback execErr files steps db =
      ⟨some "steps must be greater than 0", db, []⟩ := by
  unfold rollback
  rw [if_pos h]

/-- Witness for C9 at a concrete negative steps value. -/
theorem rollback_rejects_nonpositive_steps_witness :
    rollback execAll filesABC (-2) ["001"] =
      ⟨some "steps must be greater than 0", ["001"], []⟩ :=
  rollback_rejects_nonpositive_steps execAll filesABC (-2) ["001"] (by decide)

/-- Claim C8 (amended): for every command name other than migrate, rollback
and status the dispatcher answers Unknown command without invoking the
engine and without reading or writing any migration record — but the
tracking table is still idempotently created during service
initialization, before dispatch (the trace is exactly [createTable]). -/
theorem unknown_command_no_engine (execErr : String → Option String)
    (files : List (String × String)) (db : List String) (path : String)
    (h1 : commandOf path ≠ "migrate") (h2 : commandOf path ≠ "rollback")
    (h3 : commandOf path ≠ "status") :
    handleRequest execErr files path db =
      ⟨⟨false, "Unknown command", [], "Unknown command: " ++ commandOf path⟩,
        db, [Op.createTable]⟩ := by
  simp only [handleRequest]
  rw [if_neg h1, if_neg h2, if_neg h3]

/-- Witness for C8 (amended) at a concrete unrecognized command. -/
theorem unknown_command_no_engine_witness :
    handleRequest execAll filesABC "/migrations/teardown" ["001"] =
      ⟨⟨false, "Unknown command", [],
          "Unknown command: " ++ commandOf "/migrations/teardown"⟩,
        ["001"], [Op.createTable]⟩ :=
  unknown_command_no_engine execAll filesABC ["001"] "/migrations/teardown"
    (by decide) (by decide) (by decide)

/-- Counterexample to C8 as stated: an unrecognized command still touches
the applied-version store, because NewMigrationService (main.go lines
75-77) creates the tracking table before the command is dispatched. -/
theorem unknown_command_still_creates_table :
    (handleRequest execAll filesABC "/migrations/teardown" ["001"]).ops
        = [Op.createTable]
    ∧ Op.createTable
        ∈ (handleRequest execAll filesABC "/migrations/teardown" ["001"]).ops
    ∧ (handleRequest execAll filesABC "/migrations/teardown" ["001"]).response
        = ⟨false, "Unknown command", [], "Unknown command: teardown"⟩ := by
  decide

/-- Claim C10 (confirmed): every request whose path is not of the form
/migrations/<command> with a nonempty command — including the empty path
and any path not starting with the /migrations/ prefix — is dispatched
as the status command (main.go lines 341-344). -/
theorem default_command_is_status (execErr : String → Option String)
    (files : List (String × String)) (db : List String) (path : String)
    (h : ¬ ∃ c : String, c ≠ "" ∧ path = "/migrations/" ++ c) :
    handleRequest execErr files path db =
      ⟨⟨true, "Migration status retrieved successfully", sortAsc db, ""⟩,
        db, [Op.createTable, Op.listApplied]⟩ := by
  have hcmd : commandOf path = "status" := by
    by_cases hp : path.data.take ("/migrations/" : String).data.length
        = ("/migrations/" : String).data
    · have hsplit : ("/migrations/" : String).data
          ++ path.data.drop ("/migrations/" : String).data.length = path.data := by
        conv_rhs =>
          rw [← List.take_append_drop (("/migrations/" : String).data.length)
            path.data]
        rw [hp]
      by_cases hrest : path.data.drop ("/migrations/" : String).data.length = []
      · have hpath : path = "/migrations/" := by
          apply string_data_inj
          rw [← hsplit, hrest, List.append_nil]
        subst hpath
        decide
      · exfalso
        apply h
        refine ⟨String.mk
          (path.data.drop ("/migrations/" : String).data.length), ?_, ?_⟩
        · intro hc
          exact hrest (congrArg String.data hc)
        · apply string_data_inj
          rw [str_append_data]
          exact hsplit.symm
    · unfold commandOf dropPre
      rw [if_neg hp]
      simp
  simp only [handleRequest, hcmd]
  simp [status]

/-- Claim C2 (confirmed): the pending set of an apply invocation contains
exactly the versions that have a forward script and are not in the
applied-version store, and a successful apply executes and records them
in strictly ascending version order (the operation trace is the pending
list in order, one execScript plus one insertRecord per version, and the
store grows by the pending list in that order); a rollback invocation
selects applied versions in strictly descending version order and a
successful rollback processes exactly that selection in that order. -/
theorem apply_ascending_rollback_descending (execErr : String → Option String)
    (files : List (String × String)) (db : List String) (v : String)
    (steps : Int) (hdb : db.Nodup) :
    ((pendingOf files db).Pairwise (fun a b => verLt a b = true)
      ∧ (v ∈ pendingOf files db ↔
          ((∃ m ∈ loadMigrationFiles files, m.direction = "up" ∧ m.version = v)
            ∧ v ∉ db)))
    ∧ ((migrate execErr files db).err = none →
        migrate execErr files db =
          ⟨none, db ++ pendingOf files db,
            Op.listApplied :: (pendingOf files db).bind fun u =>
              [Op.execScript (contentFor (upsOf files) u), Op.insertRecord u]⟩)
    ∧ ((rollbackSelected db steps).Pairwise (fun a b => verLt b a = true)
      ∧ ((rollback execErr files steps db).err = none →
          rollback execErr files steps db =
            ⟨none,
              (rollbackSelected db steps).foldl
                (fun acc u => List.erase acc u) db,
              Op.listApplied :: (rollbackSelected db steps).bind fun u =>
                [Op.execScript
                    (((findLast (downsOf files) u).getD zeroFile).content),
                  Op.deleteRecord u]⟩)) := by
  refine ⟨⟨pendingOf_pairwise_lt files db, mem_pendingOf⟩, ?_, ?_, ?_⟩
  · intro herr
    by_cases hp : pendingOf files db = []
    · simp [migrate, hp]
    · have herr2 :
          (migrateLoop execErr (upsOf files) (pendingOf files db) db).err
            = none := by
        simp only [migrate] at herr
        rw [if_neg hp] at herr
        exact herr
      have hall := migrateLoop_err_none execErr (upsOf files)
        (pendingOf files db) db herr2
      have hok := migrateLoop_ok execErr (upsOf files)
        (pendingOf files db) db hall
      simp only [migrate]
      rw [if_neg hp, hok]
  · have hsub : (rollbackSelected db steps).Sublist (sortDesc db) := by
      unfold rollbackSelected
      exact List.take_sublist _ _
    exact List.Pairwise.sublist hsub (sortDesc_pairwise_gt hdb)
  · intro herr
    by_cases hle : steps ≤ 0
    · exfalso
      simp only [rollback] at herr
      rw [if_pos hle] at herr
      simp at herr
    · by_cases hnil : sortDesc db = []
      · have hsel : rollbackSelected db steps = [] := by
          unfold rollbackSelected
          rw [hnil]
          exact List.take_nil
        simp only [rollback]
        rw [if_neg hle, if_pos hnil, hsel]
        rfl
      · have herr2 :
            (rollbackLoop execErr (downsOf files)
              (rollbackSelected db steps) db).err = none := by
          simp only [rollback] at herr
          rw [if_neg hle, if_neg hnil] at herr
          exact herr
        have hall := rollbackLoop_err_none execErr (downsOf files)
          (rollbackSelected db steps) db herr2
        have hok := rollbackLoop_ok execErr (downsOf files)
          (rollbackSelected db steps) db hall
        simp only [rollback]
        rw [if_neg hle, if_neg hnil, hok]

/-- Witness for C2 at a concrete catalog and store. -/
theorem apply_ascending_rollback_descending_witness :
    ((pendingOf filesABC ["001"]).Pairwise (fun a b => verLt a b = true)
      ∧ ("002" ∈ pendingOf filesABC ["001"] ↔
          ((∃ m ∈ loadMigrationFiles filesABC,
              m.direction = "up" ∧ m.version = "002")
            ∧ "002" ∉ ["001"])))
    ∧ ((migrate execAll filesABC ["001"]).err = none →
        migrate execAll filesABC ["001"] =
          ⟨none, ["001"] ++ pendingOf filesABC ["001"],
            Op.listApplied :: (pendingOf filesABC ["001"]).bind fun u =>
              [Op.execScript (contentFor (upsOf filesABC) u),
                Op.insertRecord u]⟩)
    ∧ ((rollbackSelected ["001"] 1).Pairwise (fun a b => verLt b a = true)
      ∧ ((rollback execAll filesABC 1 ["001"]).err = none →
          rollback execAll filesABC 1 ["001"] =
            ⟨none,
              (rollbackSelected ["001"] 1).foldl
                (fun acc u => List.erase acc u) ["001"],
              Op.listApplied :: (rollbackSelected ["001"] 1).bind fun u =>
                [Op.execScript
                    (((findLast (downsOf filesABC) u).getD zeroFile).content),
                  Op.deleteRecord u]⟩)) :=
  apply_ascending_rollback_descending execAll filesABC ["001"] "002" 1
    (by decide)

/-- Claim C1 (amended): during apply each pending version runs in its own
transaction together with the insertion of its applied record; when the
datastore rejects a version's script, that transaction is rolled back (the
version is not recorded), no later pending version is attempted, versions
committed earlier in the same invocation remain applied, and the response
reports the failing version with its error — but it does not list the
versions that succeeded before the failure: appliedVersions is empty in the
failure response, the earlier successes being observable only through the
store. -/
theorem apply_partial_failure (execErr : String → Option String)
    (files : List (String × String)) (db pre post : List String) (v e : String)
    (hp : pendingOf files db = pre ++ v :: post)
    (hpre : ∀ u ∈ pre, execErr (contentFor (upsOf files) u) = none)
    (hv : execErr (contentFor (upsOf files) v) = some e) :
    handleRequest execErr files "/migrations/migrate" db =
      ⟨⟨false, "Migration failed", [],
          "failed to execute migration " ++ v ++ ": " ++ e⟩,
        db ++ pre,
        Op.createTable :: Op.listApplied ::
          ((pre.bind fun u =>
            [Op.execScript (contentFor (upsOf files) u), Op.insertRecord u])
            ++ [Op.execScript (contentFor (upsOf files) v)])⟩
    ∧ v ∉ db ++ pre := by
  have hne : pendingOf files db ≠ [] := by
    rw [hp]
    intro hcon
    exact absurd hcon (by simp)
  have hloop := migrateLoop_split execErr (upsOf files) v e post hv pre db hpre
  have hmig : migrate execErr files db =
      ⟨some ("failed to execute migration " ++ v ++ ": " ++ e), db ++ pre,
        Op.listApplied ::
          ((pre.bind fun u =>
            [Op.execScript (contentFor (upsOf files) u), Op.insertRecord u])
            ++ [Op.execScript (contentFor (upsOf files) v)])⟩ := by
    simp only [migrate]
    rw [if_neg hne, hp, hloop]
  refine ⟨?_, ?_⟩
  · simp only [handleRequest, commandOf_migrate_path, hmig]
    simp
  · have hvmem : v ∈ pendingOf files db := by rw [hp]; simp
    have hnd := pendingOf_nodup files db
    rw [hp] at hnd
    rcases List.nodup_append.mp hnd with ⟨-, -, hdisj⟩
    have hvpre : v ∉ pre := fun hvp => hdisj hvp (by simp)
    have hvdb : v ∉ db := (mem_pendingOf.mp hvmem).2
    simp [hvdb, hvpre]

/-- Witness for C1 (amended) at a concrete failing catalog. -/
theorem apply_partial_failure_witness :
    handleRequest execFailB filesABC "/migrations/migrate" [] =
      ⟨⟨false, "Migration failed", [],
          "failed to execute migration " ++ "002" ++ ": " ++ "syntax error"⟩,
        [] ++ ["001"],
        Op.createTable :: Op.listApplied ::
          ((["001"].bind fun u =>
            [Op.execScript (contentFor (upsOf filesABC) u), Op.insertRecord u])
            ++ [Op.execScript (contentFor (upsOf filesABC) "002")])⟩
    ∧ "002" ∉ ([] : List String) ++ ["001"] :=
  apply_partial_failure execFailB filesABC [] ["001"] ["003"] "002"
    "syntax error" (by decide) (by decide) (by decide)

/-- Counterexample to C1 as stated: with versions 001, 002, 003 pending and
002's script rejected, 001 is committed and remains in the store, yet the
failure response reports only the failing version and its error — its
appliedVersions list is empty, so the response does not report which
versions succeeded before the failure. -/
theorem apply_failure_omits_earlier_successes :
    (handleRequest execFailB filesABC "/migrations/migrate" []).db = ["001"]
    ∧ (handleRequest execFailB filesABC
        "/migrations/migrate" []).response.appliedVersions = []
    ∧ (handleRequest execFailB filesABC
        "/migrations/migrate" []).response.success = false
    ∧ (handleRequest execFailB filesABC "/migrations/migrate" []).response.error
        = "failed to execute migration 002: syntax error" := by
  decide

/-- Claim C3 (amended): a catalog containing two entries with the same
version and direction does not make loading fail — there is no duplicate
check; the engine collapses the duplicates through its last-wins version
map, and apply executes and records the duplicated version exactly once,
modifying the store. -/
theorem duplicate_catalog_tolerated (execErr : String → Option String)
    (files : List (String × String)) (db : List String) (v : String)
    (hdup : ∃ m1 ∈ loadMigrationFiles files, ∃ m2 ∈ loadMigrationFiles files,
      m1 ≠ m2 ∧ m1.version = v ∧ m2.version = v
        ∧ m1.direction = "up" ∧ m2.direction = "up")
    (hvdb : v ∉ db)
    (hok : ∀ u ∈ pendingOf files db,
      execErr (contentFor (upsOf files) u) = none) :
    (migrate execErr files db).err = none
      ∧ (migrate execErr files db).db.count v = 1 := by
  rcases hdup with ⟨m1, hm1, _m2, _hm2, -, hv1, -, hd1, -⟩
  have hvmem : v ∈ pendingOf files db :=
    mem_pendingOf.mpr ⟨⟨m1, hm1, hd1, hv1⟩, hvdb⟩
  have hne : pendingOf files db ≠ [] := by
    intro hcon
    rw [hcon] at hvmem
    exact absurd hvmem (List.not_mem_nil v)
  have hok2 := migrateLoop_ok execErr (upsOf files) (pendingOf files db) db hok
  have hmig : migrate execErr files db =
      ⟨none, db ++ pendingOf files db,
        Op.listApplied :: (pendingOf files db).bind fun u =>
          [Op.execScript (contentFor (upsOf files) u), Op.insertRecord u]⟩ := by
    simp only [migrate]
    rw [if_neg hne, hok2]
  rw [hmig]
  refine ⟨rfl, ?_⟩
  show (db ++ pendingOf files db).count v = 1
  rw [List.count_append, List.count_eq_zero.mpr hvdb,
    List.count_eq_one_of_mem (pendingOf_nodup files db) hvmem]

/-- Witness for C3 (amended) at the concrete duplicate catalog. -/
theorem duplicate_catalog_tolerated_witness :
    (migrate execAll filesDup []).err = none
      ∧ (migrate execAll filesDup []).db.count "001" = 1 :=
  duplicate_catalog_tolerated execAll filesDup [] "001"
    (by decide) (by decide) (by decide)

/-- Counterexample to C3 as stated: a catalog with two up entries both
declaring version 001 does not fail at load time; the invocation executes
a script and changes the applied-version store. -/
theorem duplicate_catalog_still_executes :
    (handleRequest execAll filesDup "/migrations/migrate" []).db = ["001"]
    ∧ (handleRequest execAll filesDup
        "/migrations/migrate" []).response.success = true
    ∧ Op.execScript "CREATE A2"
        ∈ (handleRequest execAll filesDup "/migrations/migrate" []).ops := by
  decide

/-- Claim C4 (amended): running apply when no migrations are pending
reports success=true, but the appliedVersions list in the response is the
full sorted list of currently applied versions (the status list read back
after the no-op), not an empty applied-this-run list; it is empty only
when nothing is applied at all.  The store is unchanged. -/
theorem apply_noop_reports_status (execErr : String → Option String)
    (files : List (String × String)) (db : List String)
    (h : pendingOf files db = []) :
    handleRequest execErr files "/migrations/migrate" db =
      ⟨⟨true, "Migrations applied successfully", sortAsc db, ""⟩, db,
        [Op.createTable, Op.listApplied, Op.listApplied]⟩ := by
  have hmig : migrate execErr files db = ⟨none, db, [Op.listApplied]⟩ := by
    simp only [migrate]
    rw [if_pos h]
  simp only [handleRequest, commandOf_migrate_path, hmig]
  simp [status]

/-- Witness for C4 (amended): a second apply with every version already
recorded is a no-op whose response lists all applied versions. -/
theorem apply_noop_reports_status_witness :
    handleRequest execAll filesABC "/migrations/migrate" ["001", "002", "003"] =
      ⟨⟨true, "Migrations applied successfully", ["001", "002", "003"], ""⟩,
        ["001", "002", "003"],
        [Op.createTable, Op.listApplied, Op.listApplied]⟩ :=
  apply_noop_reports_status execAll filesABC ["001", "002", "003"] (by decide)

/-- Counterexample to C4 as stated: an apply invocation with nothing
pending answers success=true but a NON-empty appliedVersions list — it
reports all currently applied versions rather than the (empty) list of
versions applied by that run. -/
theorem apply_noop_lists_all_applied :
    (handleRequest execAll filesABC "/migrations/migrate"
        ["001", "002", "003"]).response.success = true
    ∧ (handleRequest execAll filesABC "/migrations/migrate"
        ["001", "002", "003"]).response.appliedVersions
        = ["001", "002", "003"] := by
  decide

/-- Claim C5 (code evaluation at the failing input): with versions 001,
002 and 003 applied and every down script present, a rollback request —
whatever steps value the caller puts in the request body — reverts exactly
one version, because handleRequest (main.go lines 363-365) hardcodes
steps to 1 and never parses the MigrationRequest body. -/
theorem rollback_ignores_requested_steps :
    handleRequest execAll filesABC "/migrations/rollback"
        ["001", "002", "003"] =
      ⟨⟨true, "Rollback completed successfully", ["001", "002"], ""⟩,
        ["001", "002"],
        [Op.createTable, Op.listApplied, Op.execScript "DROP C",
          Op.deleteRecord "003", Op.listApplied]⟩ := by
  decide

/-- Claim C6 (confirmed): when a selected rollback version has no down
script, the invocation fails with the missing-rollback-script error naming
that version and stops — versions rolled back earlier in the same
invocation stay rolled back, the offending version stays recorded as
applied, and no later selected version is processed (the trace ends with
the deletions of the earlier versions). -/
theorem rollback_missing_down_script (execErr : String → Option String)
    (files : List (String × String)) (steps : Int) (db pre post : List String)
    (v : String) (hdb : db.Nodup)
    (hsel : rollbackSelected db steps = pre ++ v :: post)
    (hpre : ∀ u ∈ pre, downOk execErr (downsOf files) u = true)
    (hv : findLast (downsOf files) v = none) :
    rollback execErr files steps db =
      ⟨some ("down migration not found for version " ++ v),
        pre.foldl (fun acc u => List.erase acc u) db,
        Op.listApplied :: pre.bind fun u =>
          [Op.execScript (((findLast (downsOf files) u).getD zeroFile).content),
            Op.deleteRecord u]⟩
    ∧ v ∈ pre.foldl (fun acc u => List.erase acc u) db := by
  have hselne : rollbackSelected db steps ≠ [] := by
    rw [hsel]
    intro hcon
    exact absurd hcon (by simp)
  have hle : ¬ steps ≤ 0 := by
    intro hle0
    apply hselne
    show List.take (min steps ((sortDesc db).length : Int)).toNat (sortDesc db)
      = []
    have h0 : (min steps ((sortDesc db).length : Int)).toNat = 0 := by omega
    rw [h0]
    exact List.take_zero _
  have hnil : ¬ sortDesc db = [] := by
    intro h0
    apply hselne
    show List.take (min steps ((sortDesc db).length : Int)).toNat (sortDesc db)
      = []
    rw [h0]
    exact List.take_nil
  have hloop := rollbackLoop_missing execErr (downsOf files) v post hv pre db hpre
  constructor
  · simp only [rollback]
    rw [if_neg hle, if_neg hnil, hsel, hloop]
  · have hvsel : v ∈ rollbackSelected db steps := by rw [hsel]; simp
    have hsub : (rollbackSelected db steps).Sublist (sortDesc db) := by
      unfold rollbackSelected
      exact List.take_sublist _ _
    have hvdb : v ∈ db := (sortDesc_perm db).subset (hsub.subset hvsel)
    have hselnd : (rollbackSelected db steps).Nodup :=
      List.Nodup.sublist hsub (((sortDesc_perm db).nodup_iff).mpr hdb)
    rw [hsel] at hselnd
    rcases List.nodup_append.mp hselnd with ⟨-, -, hdisj⟩
    have hvpre : v ∉ pre := fun hvp => hdisj hvp (by simp)
    exact mem_foldl_erase pre v db hvdb hvpre

/-- Witness for C6 at a concrete catalog missing 001's down script. -/
theorem rollback_missing_down_script_witness :
    rollback execAll filesNoDown 2 ["001", "002"] =
      ⟨some ("down migration not found for version " ++ "001"),
        ["002"].foldl (fun acc u => List.erase acc u) ["001", "002"],
        Op.listApplied :: ["002"].bind fun u =>
          [Op.execScript
              (((findLast (downsOf filesNoDown) u).getD zeroFile).content),
            Op.deleteRecord u]⟩
    ∧ "001" ∈ ["002"].foldl (fun acc u => List.erase acc u) ["001", "002"] :=
  rollback_missing_down_script execAll filesNoDown 2 ["001", "002"] ["002"]
    [] "001" (by decide) (by decide) (by decide) (by decide)

/-- Claim C7 (confirmed): a rollback requested with more steps than there
are applied versions is clamped — it succeeds, rolls back exactly all
applied versions (most recent first), and the excess never causes an
error; with an empty store the dispatcher reports success=true. -/
theorem rollback_clamps_excess_steps (execErr : String → Option String)
    (files : List (String × String)) (steps : Int) (db : List String)
    (hsteps : (db.length : Int) < steps)
    (hok : ∀ u ∈ db, downOk execErr (downsOf files) u = true) :
    (rollback execErr files steps db).err = none
    ∧ (rollback execErr files steps db).db = []
    ∧ opsDeleted (rollback execErr files steps db).ops = sortDesc db
    ∧ (db = [] → handleRequest execErr files "/migrations/rollback" db =
        ⟨⟨true, "Rollback completed successfully", [], ""⟩, [],
          [Op.createTable, Op.listApplied, Op.listApplied]⟩) := by
  have hle : ¬ steps ≤ 0 := by omega
  by_cases hnil : sortDesc db = []
  · have hdbnil : db = [] := by
      have hp := sortDesc_perm db
      rw [hnil] at hp
      exact hp.symm.eq_nil
    subst hdbnil
    have hrb : rollback execErr files steps [] =
        ⟨none, [], [Op.listApplied]⟩ := by
      simp only [rollback]
      rw [if_neg hle, if_pos hnil]
    have hrb1 : rollback execErr files 1 [] =
        ⟨none, [], [Op.listApplied]⟩ := by
      simp only [rollback]
      rw [if_neg (by omega : ¬ (1 : Int) ≤ 0), if_pos hnil]
    refine ⟨by rw [hrb], by rw [hrb], by rw [hrb]; rfl, ?_⟩
    intro _
    simp only [handleRequest, commandOf_rollback_path, hrb1]
    simp [status, sortAsc, sortBy]
  · have hsel : rollbackSelected db steps = sortDesc db := by
      show List.take (min steps ((sortDesc db).length : Int)).toNat (sortDesc db)
        = sortDesc db
      have hlen : (sortDesc db).length = db.length := (sortDesc_perm db).length_eq
      have hmin : (min steps ((sortDesc db).length : Int)).toNat
          = (sortDesc db).length := by
        rw [hlen]
        omega
      rw [hmin, List.take_length]
    have hall : ∀ u ∈ rollbackSelected db steps,
        downOk execErr (downsOf files) u = true := by
      intro u hu
      rw [hsel] at hu
      exact hok u ((sortDesc_perm db).subset hu)
    have hloop := rollbackLoop_ok execErr (downsOf files)
      (rollbackSelected db steps) db hall
    have hrb : rollback execErr files steps db =
        ⟨none,
          (rollbackSelected db steps).foldl (fun acc u => List.erase acc u) db,
          Op.listApplied :: (rollbackSelected db steps).bind fun u =>
            [Op.execScript
                (((findLast (downsOf files) u).getD zeroFile).content),
              Op.deleteRecord u]⟩ := by
      simp only [rollback]
      rw [if_neg hle, if_neg hnil, hloop]
    have hempty : (rollbackSelected db steps).foldl
        (fun acc u => List.erase acc u) db = [] := by
      rw [hsel]
      exact foldl_erase_of_perm (sortDesc db) db (sortDesc_perm db)
    refine ⟨by rw [hrb], by rw [hrb]; exact hempty, ?_, ?_⟩
    · rw [hrb]
      calc opsDeleted (Op.listApplied :: (rollbackSelected db steps).bind
            fun u => [Op.execScript
                (((findLast (downsOf files) u).getD zeroFile).content),
              Op.deleteRecord u])
          = rollbackSelected db steps := by
            rw [show opsDeleted (Op.listApplied :: (rollbackSelected db steps).bind
                fun u => [Op.execScript
                    (((findLast (downsOf files) u).getD zeroFile).content),
                  Op.deleteRecord u])
                = opsDeleted ((rollbackSelected db steps).bind
                    fun u => [Op.execScript
                        (((findLast (downsOf files) u).getD zeroFile).content),
                      Op.deleteRecord u]) from by simp [opsDeleted]]
            exact opsDeleted_step _ _
        _ = sortDesc db := hsel
    · intro hdbnil
      exfalso
      apply hnil
      rw [hdbnil]
      rfl

/-- Witness for C7 with two applied versions and five requested steps. -/
theorem rollback_clamps_excess_steps_witness :
    (rollback execAll filesABC 5 ["001", "002"]).err = none
    ∧ (rollback execAll filesABC 5 ["001", "002"]).db = []
    ∧ opsDeleted (rollback execAll filesABC 5 ["001", "002"]).ops
        = sortDesc ["001", "002"]
    ∧ (["001", "002"] = ([] : List String) →
        handleRequest execAll filesABC "/migrations/rollback" ["001", "002"] =
          ⟨⟨true, "Rollback completed successfully", [], ""⟩, [],
            [Op.createTable, Op.listApplied, Op.listApplied]⟩) :=
  rollback_clamps_excess_steps execAll filesABC 5 ["001", "002"]
    (by decide) (by decide)

/-- Witness for C10 at the empty path. -/
theorem default_command_is_status_witness :
    handleRequest execAll filesABC "" ["002", "001"] =
      ⟨⟨true, "Migration status retrieved successfully", ["001", "002"], ""⟩,
        ["002", "001"], [Op.createTable, Op.listApplied]⟩ :=
  default_command_is_status execAll filesABC ["002", "001"] "" (by
    rintro ⟨c, hc, hpath⟩
    have h2 : ("" : String).data = ("/migrations/" : String).data ++ c.data := by
      rw [← str_append_data]
      exact congrArg String.data hpath
    have h3 : ("/migrations/" : String).data ++ c.data = ([] : List Char) :=
      h2.symm
    exact absurd (List.append_eq_nil.mp h3).1 (by decide))

end Migration
